import Mathlib

/-!
Verification of the stage-reconciliation engine of the Secrets Manager
secret-version resource, embedded from
src/aws/resource_aws_secretsmanager_secret_version.go, and of the generated
tag-update glue in src/internal/service/ivschat/tags_gen.go.
-/

namespace SecretVersion

/-! ### Resource-ID codec
Embeds decodeSecretsManagerSecretVersionID (lines 325-331) and the ID
construction in the Create path (line 103). Go strings.Split with a
one-character separator splits at every occurrence of the separator and
returns one (possibly empty) part more than the number of occurrences. -/

/-- Splitting a character list at every occurrence of the pipe character,
as Go strings.Split with separator pipe does on the underlying bytes. -/
def splitOnPipe : List Char → List (List Char)
  | [] => [[]]
  | c :: rest =>
    if c = '|' then
      [] :: splitOnPipe rest
    else
      match splitOnPipe rest with
      | [] => [[c]]
      | p :: ps => (c :: p) :: ps

/-- Embeds decodeSecretsManagerSecretVersionID: split the ID on the pipe
character; any part count other than two is an error, and otherwise the two
parts (emptiness is not checked) are returned. -/
def decodeSecretsManagerSecretVersionID (id : String) :
    Except String (String × String) :=
  if (splitOnPipe id.data).length ≠ 2 then
    Except.error ("expected ID in format SecretID|VersionID, received: " ++ id)
  else
    Except.ok (⟨(splitOnPipe id.data).headD []⟩, ⟨(splitOnPipe id.data).getD 1 []⟩)

/-- Embeds the ID construction of the Create path (line 103):
fmt.Sprintf with format secretID pipe versionID. -/
def encodeSecretsManagerSecretVersionID (secretID versionID : String) : String :=
  secretID ++ "|" ++ versionID

/-- Whether an Except value is a success. -/
def exceptIsOk : Except String (String × String) → Bool
  | Except.ok _ => true
  | Except.error _ => false

/-! ### Data model for the Update / Delete executors

The Update function (lines 180-286), after decoding the ID and diffing the
version-stage sets, issues a sequence of remote UpdateSecretVersionStage
calls. We embed the remote interaction as follows:
- the secret's version history, served page by page by ListSecretVersionIds,
  is a list of pages, each page a list of versions with their stage labels;
- each UpdateSecretVersionStage call is recorded as a MoveCall, and its
  remote result is supplied by an environment function MoveCall to MoveResult;
- DescribeSecret and ListSecretVersionIds are assumed to succeed (no claim
  concerns their failure);
- the nil-pointer dereference in the debug log at line 250 is modelled as an
  explicit crash outcome, since dereferencing a nil pointer panics in Go. -/

/-- A secret version as returned by ListSecretVersionIds: its ID and its
stage labels. -/
structure Version where
  versionId : String
  versionStages : List String
deriving DecidableEq, Repr

/-- One UpdateSecretVersionStage request: the MoveToVersionId field, the
RemoveFromVersionId field (either may be absent), and the VersionStage. -/
structure MoveCall where
  moveTo : Option String
  removeFrom : Option String
  stage : String
deriving DecidableEq, Repr

/-- Remote result of one UpdateSecretVersionStage call: success,
ResourceNotFoundException, the InvalidRequestException for a deleted secret,
or any other error. -/
inductive MoveResult where
  | success
  | notFound
  | invalidDeleted
  | otherErr
deriving DecidableEq, Repr

/-- Outcome of a resource operation: normal return, an error return, or a
runtime panic (crash). -/
inductive Outcome where
  | ok
  | err (msg : String)
  | crash
deriving DecidableEq, Repr

/-- An environment in which every remote move call succeeds. -/
def allMovesOk : MoveCall → MoveResult := fun _ => MoveResult.success

/-! ### Current-Holder Locator (lines 214-244) -/

/-- Embeds the inner scan of one page (lines 228-237): walk the versions in
order and return the ID of the first version one of whose stage labels is
AWSCURRENT. -/
def findCurrentInVersions : List Version → Option String
  | [] => none
  | v :: rest =>
    if v.versionStages.contains "AWSCURRENT" then some v.versionId
    else findCurrentInVersions rest

/-- Embeds the pagination loop (lines 218-244) over the history pages.
Returns the located holder (none if no version carries AWSCURRENT) together
with the number of ListSecretVersionIds requests issued. One request is
always issued; after a page is fetched, the scan stops at the first version
carrying AWSCURRENT, and otherwise continues only while the server returns a
continuation token (modelled as: further pages remain). -/
def locate : List (List Version) → Option String × Nat
  | [] => (none, 1)
  | page :: rest =>
    match findCurrentInVersions page with
    | some v => (some v, 1)
    | none =>
      match rest with
      | [] => (none, 1)
      | _ :: _ => ((locate rest).1, (locate rest).2 + 1)

/-! ### Stage Diff Planner (lines 188-192)
The version-stage sets are schema sets of strings; Difference is set
difference. -/

/-- Embeds stagesToAdd (line 191): desired minus observed. -/
def stagesToAdd (os ns : Finset String) : Finset String := ns \ os

/-- Embeds stagesToRemove (line 192): observed minus desired. -/
def stagesToRemove (os ns : Finset String) : Finset String := os \ ns

/-! ### Reconciliation Executor: additions (lines 194-265) -/

/-- Embeds the additions loop (lines 197-265). Arguments thread the loop
state: described is whether describedSecret is non-nil (the memoization
sentinel of line 208), prev is awsPreviousVersionID (initialized at line 195
to the version under reconciliation, overwritten at line 264 by every
iteration with that iteration's RemoveFromVersionId field). Returns the move
calls issued in order, the final awsPreviousVersionID, and the outcome. On
the first AWSCURRENT addition the Locator runs; if it yields no holder, the
debug log at line 250 dereferences the nil pointer: modelled as crash. -/
def processAdds (versionID : String) (pages : List (List Version))
    (moveRes : MoveCall → MoveResult) :
    List String → Bool → Option String → List MoveCall × Option String × Outcome
  | [], _, prev => ([], prev, Outcome.ok)
  | stage :: rest, described, prev =>
    if stage = "AWSCURRENT" ∧ described = false then
      match (locate pages).1 with
      | none => ([], prev, Outcome.crash)
      | some holder =>
        match moveRes ⟨some versionID, some holder, stage⟩ with
        | MoveResult.success =>
          (⟨some versionID, some holder, stage⟩ ::
            (processAdds versionID pages moveRes rest true (some holder)).1,
           (processAdds versionID pages moveRes rest true (some holder)).2)
        | _ => ([⟨some versionID, some holder, stage⟩], some holder,
                Outcome.err ("error updating stage " ++ stage))
    else
      match moveRes ⟨some versionID, none, stage⟩ with
      | MoveResult.success =>
        (⟨some versionID, none, stage⟩ ::
          (processAdds versionID pages moveRes rest described none).1,
         (processAdds versionID pages moveRes rest described none).2)
      | _ => ([⟨some versionID, none, stage⟩], none,
              Outcome.err ("error updating stage " ++ stage))

/-! ### Reconciliation Executor: removals (lines 267-283) -/

/-- Embeds the removals loop (lines 267-283): AWSCURRENT is skipped with a
log line (lines 269-272); any other stage is removed from
awsPreviousVersionID; a failed call returns an error immediately. Returns
the calls issued in order and the outcome. -/
def processRemovals (prev : Option String) (moveRes : MoveCall → MoveResult) :
    List String → List MoveCall × Outcome
  | [] => ([], Outcome.ok)
  | stage :: rest =>
    if stage = "AWSCURRENT" then processRemovals prev moveRes rest
    else
      match moveRes ⟨none, prev, stage⟩ with
      | MoveResult.success =>
        (⟨none, prev, stage⟩ :: (processRemovals prev moveRes rest).1,
         (processRemovals prev moveRes rest).2)
      | _ => ([⟨none, prev, stage⟩], Outcome.err ("error updating stage " ++ stage))

/-- Embeds the stage-reconciliation body of the Update function (lines
188-283): process additions, then, if they returned normally, process
removals against the final awsPreviousVersionID. Returns all move calls
issued in order and the outcome. -/
def updateSecretVersionStages (versionID : String) (pages : List (List Version))
    (moveRes : MoveCall → MoveResult) (toAdd toRemove : List String) :
    List MoveCall × Outcome :=
  match (processAdds versionID pages moveRes toAdd false (some versionID)).2.2 with
  | Outcome.ok =>
    ((processAdds versionID pages moveRes toAdd false (some versionID)).1 ++
      (processRemovals (processAdds versionID pages moveRes toAdd false (some versionID)).2.1
        moveRes toRemove).1,
     (processRemovals (processAdds versionID pages moveRes toAdd false (some versionID)).2.1
        moveRes toRemove).2)
  | o => ((processAdds versionID pages moveRes toAdd false (some versionID)).1, o)

/-! ### Deletion path (lines 288-323) -/

/-- Embeds the stage-removal loop of the Delete function (lines 296-320):
for each held stage, AWSCURRENT is skipped with a warning (lines 299-302);
any other stage is removed from the version under deletion; a call failing
with ResourceNotFoundException or with the deleted-secret
InvalidRequestException makes Delete return success immediately (lines
311-316); any other failure is an error. Returns the calls issued in order
and the outcome. -/
def deleteSecretVersionStages (versionID : String)
    (moveRes : MoveCall → MoveResult) : List String → List MoveCall × Outcome
  | [] => ([], Outcome.ok)
  | stage :: rest =>
    if stage = "AWSCURRENT" then deleteSecretVersionStages versionID moveRes rest
    else
      match moveRes ⟨none, some versionID, stage⟩ with
      | MoveResult.success =>
        (⟨none, some versionID, stage⟩ ::
          (deleteSecretVersionStages versionID moveRes rest).1,
         (deleteSecretVersionStages versionID moveRes rest).2)
      | MoveResult.notFound => ([⟨none, some versionID, stage⟩], Outcome.ok)
      | MoveResult.invalidDeleted => ([⟨none, some versionID, stage⟩], Outcome.ok)
      | MoveResult.otherErr =>
        ([⟨none, some versionID, stage⟩], Outcome.err ("error updating stage " ++ stage))

/-! ### Retrying Reader (lines 108-178)

The Read function issues GetSecretValue inside resource.Retry. We embed the
remote as a function from the attempt index to that attempt's result, the
retry budget (the propagation timeout divided into attempts) as a fuel
counter, and record the number of GetSecretValue calls, the final resource
ID held in state (none means the ID was cleared, dropping the resource),
and the outcome. The payload fields set on success are not modelled; only
the control flow is. -/

/-- Result of one GetSecretValue call. -/
inductive GetResult where
  | found
  | notFound
  | invalidDeleted
  | otherErr
deriving DecidableEq, Repr

/-- Embeds the resource.Retry loop (lines 123-141): attempt i is retried
while it fails with ResourceNotFoundException or the deleted-secret
InvalidRequestException AND the resource is newly created; when the fuel is
exhausted the loop reports a timeout. Returns the number of calls made, a
timed-out flag, and the last result. -/
def retryGetSecretValue (isNew : Bool) (get : Nat → GetResult) :
    Nat → Nat → Nat × Bool × GetResult
  | i, fuel =>
    let r := get i
    if isNew = true ∧ (r = GetResult.notFound ∨ r = GetResult.invalidDeleted) then
      match fuel with
      | 0 => (i + 1, true, r)
      | fuel' + 1 => retryGetSecretValue isNew get (i + 1) fuel'
    else (i + 1, false, r)

/-- Embeds the Read function's control flow (lines 108-178): run the retry
loop; on timeout make one final unretried call (lines 143-145); for a
pre-existing resource a not-found or deleted-secret error clears the ID and
returns success (lines 147-157); any remaining error is returned (lines
159-161); otherwise the state is populated and Read succeeds. -/
def readSecretVersion (isNew : Bool) (get : Nat → GetResult) (fuel : Nat)
    (id : String) : Nat × Option String × Outcome :=
  let t := retryGetSecretValue isNew get 0 fuel
  let n := if t.2.1 = true then t.1 + 1 else t.1
  let r := if t.2.1 = true then get t.1 else t.2.2
  if isNew = false ∧ r = GetResult.notFound then (n, none, Outcome.ok)
  else if isNew = false ∧ r = GetResult.invalidDeleted then (n, none, Outcome.ok)
  else
    match r with
    | GetResult.found => (n, some id, Outcome.ok)
    | _ => (n, some id, Outcome.err ("error reading Secrets Manager Secret Version " ++ id))

/-- A remote that answers every read attempt with ResourceNotFoundException. -/
def alwaysNotFound : Nat → GetResult := fun _ => GetResult.notFound

end SecretVersion

namespace IVSChatTags

/-! ### Tag-update glue, src/internal/service/ivschat/tags_gen.go

UpdateTags (lines 45-76) computes a removed-tag set and an updated-tag set
from the old and new tag maps and issues an UntagResource call when the
removed set is non-empty and a TagResource call when the updated set is
non-empty. The set computations live in the internal tags package
(tftags.KeyValueTags.Removed / Updated), which is not under src/; they are
modelled from the spec. Tag maps are embedded as association lists of
key-value pairs. -/

/-- Modelled from the spec: tftags.KeyValueTags.Removed is not under src/;
per the spec the tag-sync interface computes the removed tags, i.e. the
entries of the old map whose keys are no longer present in the new map. -/
def removedTags (oldTags newTags : List (String × String)) :
    List (String × String) :=
  oldTags.filter (fun kv => !(newTags.any (fun kv2 => kv2.1 == kv.1)))

/-- Modelled from the spec: tftags.KeyValueTags.Updated is not under src/;
per the spec the tag-sync interface computes the added and changed tags,
i.e. the entries of the new map whose key is absent from the old map or
mapped there to a different value. -/
def updatedTags (oldTags newTags : List (String × String)) :
    List (String × String) :=
  newTags.filter (fun kv => !(oldTags.any (fun kv2 => kv2.1 == kv.1 && kv2.2 == kv.2)))

/-- A remote tag-service call issued by UpdateTags: an UntagResource call
carrying the removed keys, or a TagResource call carrying the updated
entries. -/
inductive TagCall where
  | untag (keys : List String)
  | tag (tags : List (String × String))
deriving DecidableEq, Repr

/-- Embeds UpdateTags (lines 45-76): if the removed set is non-empty, issue
UntagResource with its keys and fail on error; then, if the updated set is
non-empty, issue TagResource with its entries and fail on error; otherwise
return success. The untagOk and tagOk flags give the remote results of the
two possible calls. Returns the calls issued in order and the outcome. -/
def UpdateTags (oldTags newTags : List (String × String))
    (untagOk tagOk : Bool) : List TagCall × SecretVersion.Outcome :=
  let r := removedTags oldTags newTags
  let u := updatedTags oldTags newTags
  if 0 < r.length then
    let c₁ := TagCall.untag (r.map Prod.fst)
    if untagOk then
      if 0 < u.length then
        let c₂ := TagCall.tag u
        if tagOk then ([c₁, c₂], SecretVersion.Outcome.ok)
        else ([c₁, c₂], SecretVersion.Outcome.err ("tagging resource"))
      else ([c₁], SecretVersion.Outcome.ok)
    else ([c₁], SecretVersion.Outcome.err ("untagging resource"))
  else
    if 0 < u.length then
      let c₂ := TagCall.tag u
      if tagOk then ([c₂], SecretVersion.Outcome.ok)
      else ([c₂], SecretVersion.Outcome.err ("tagging resource"))
    else ([], SecretVersion.Outcome.ok)

end IVSChatTags

namespace SecretVersion

/-! ## Helper lemmas about splitOnPipe -/

theorem splitOnPipe_ne_nil (l : List Char) : splitOnPipe l ≠ [] := by
  induction l with
  | nil => simp [splitOnPipe]
  | cons c rest ih =>
    simp only [splitOnPipe]
    split
    · simp
    · match h : splitOnPipe rest with
      | [] => simp
      | p :: ps => simp

theorem splitOnPipe_length (l : List Char) :
    (splitOnPipe l).length = l.count '|' + 1 := by
  induction l with
  | nil => simp [splitOnPipe]
  | cons c rest ih =>
    simp only [splitOnPipe]
    split
    · rename_i hc
      subst hc
      simp [List.count_cons, ih]
    · rename_i hc
      match h : splitOnPipe rest with
      | [] => exact absurd h (splitOnPipe_ne_nil rest)
      | p :: ps =>
        rw [h] at ih
        simp only [List.length_cons] at ih ⊢
        have : rest.count '|' = ps.length := by omega
        simp [List.count_cons, hc, this]

theorem splitOnPipe_no_pipe (l : List Char) (hl : '|' ∉ l) :
    splitOnPipe l = [l] := by
  induction l with
  | nil => simp [splitOnPipe]
  | cons c rest ih =>
    have hc : c ≠ '|' := fun h => hl (h ▸ List.mem_cons_self c rest)
    have hrest : '|' ∉ rest := fun h => hl (List.mem_cons_of_mem c h)
    simp only [splitOnPipe, if_neg hc, ih hrest]

theorem splitOnPipe_append_pipe (s t : List Char) (hs : '|' ∉ s) (ht : '|' ∉ t) :
    splitOnPipe (s ++ '|' :: t) = [s, t] := by
  induction s with
  | nil => simp [splitOnPipe, splitOnPipe_no_pipe t ht]
  | cons c rest ih =>
    have hc : c ≠ '|' := fun h => hs (h ▸ List.mem_cons_self c rest)
    have hrest : '|' ∉ rest := fun h => hs (List.mem_cons_of_mem c h)
    simp only [List.cons_append, splitOnPipe, if_neg hc, List.append_eq]
    rw [ih hrest]

theorem decode_ok_iff_exactly_one_pipe (id : String) :
    exceptIsOk (decodeSecretsManagerSecretVersionID id) =
      decide (id.data.count '|' = 1) := by
  have hlen := splitOnPipe_length id.data
  unfold decodeSecretsManagerSecretVersionID
  by_cases h2 : (splitOnPipe id.data).length ≠ 2
  · rw [if_pos h2]
    symm
    rw [decide_eq_false]
    · rfl
    · omega
  · rw [if_neg h2]
    symm
    rw [decide_eq_true]
    · rfl
    · omega

/-! ## Claim theorems: the resource-ID codec -/

/-- Claim C3, counterexample: the decoder accepts the ID consisting of the
letter a followed by a pipe, returning an empty versionID component, and
the ID consisting of a pipe followed by the letter b, returning an empty
secretID component — contradicting the claim that a string with an empty
component is rejected. -/
theorem decode_accepts_empty_components :
    decodeSecretsManagerSecretVersionID "a|" = Except.ok ("a", "") ∧
    decodeSecretsManagerSecretVersionID "|b" = Except.ok ("", "b") := by
  constructor <;> rfl

/-- Claim C3 (amended): decoding fails exactly when the input does not split
on the pipe character into exactly two parts, i.e. when the number of pipe
characters differs from one; the emptiness of the two components is not
checked, so IDs with empty components are accepted. -/
theorem decode_fails_iff_not_two_parts (id : String) :
    exceptIsOk (decodeSecretsManagerSecretVersionID id) =
      decide (id.data.count '|' = 1) :=
  decode_ok_iff_exactly_one_pipe id

/-- Claim C7: for components free of the pipe character, decoding the
encoded ID returns exactly the two components with no error; and decoding
any string whose pipe-character count differs from one returns an error. -/
theorem decode_encode_roundtrip (s t id : String)
    (hs : '|' ∉ s.data) (ht : '|' ∉ t.data) (hid : id.data.count '|' ≠ 1) :
    decodeSecretsManagerSecretVersionID (encodeSecretsManagerSecretVersionID s t) =
      Except.ok (s, t) ∧
    exceptIsOk (decodeSecretsManagerSecretVersionID id) = false := by
  constructor
  · have hdata : (encodeSecretsManagerSecretVersionID s t).data =
        s.data ++ '|' :: t.data := by
      simp [encodeSecretsManagerSecretVersionID, String.data_append]
    unfold decodeSecretsManagerSecretVersionID
    rw [hdata, splitOnPipe_append_pipe s.data t.data hs ht]
    obtain ⟨sd⟩ := s
    obtain ⟨td⟩ := t
    rfl
  · rw [decode_ok_iff_exactly_one_pipe]
    simp [hid]

/-- Witness for decode_encode_roundtrip at concrete inputs. -/
theorem decode_encode_roundtrip_witness :
    decodeSecretsManagerSecretVersionID
        (encodeSecretsManagerSecretVersionID "sec" "ver") = Except.ok ("sec", "ver") ∧
    exceptIsOk (decodeSecretsManagerSecretVersionID "noPipeHere") = false :=
  decode_encode_roundtrip "sec" "ver" "noPipeHere" (by decide) (by decide) (by decide)

/-! ## Claim theorems: the Stage Diff Planner -/

/-- Claim C5: the planner computes toAdd as desired minus observed and
toRemove as observed minus desired; the two are disjoint, removing toRemove
from the observed set and adding toAdd yields exactly the desired set, and
empty inputs yield empty outputs. -/
theorem planner_exact_minimal_diff (os ns : Finset String) :
    stagesToAdd os ns = ns \ os ∧
    stagesToRemove os ns = os \ ns ∧
    stagesToAdd os ns ∩ stagesToRemove os ns = ∅ ∧
    (os \ stagesToRemove os ns) ∪ stagesToAdd os ns = ns ∧
    stagesToAdd ∅ ∅ = ∅ ∧ stagesToRemove ∅ ∅ = ∅ := by
  refine ⟨rfl, rfl, ?_, ?_, by simp [stagesToAdd], by simp [stagesToRemove]⟩
  · ext x
    simp only [stagesToAdd, stagesToRemove, Finset.mem_inter, Finset.mem_sdiff,
      Finset.not_mem_empty, iff_false]
    tauto
  · rw [stagesToAdd, stagesToRemove, Finset.sdiff_sdiff_self_left,
      Finset.inter_comm, Finset.union_comm, Finset.sdiff_union_inter]

/-! ## Claim theorems: the Current-Holder Locator -/

/-- Claim C6: whenever some version on the first history page carries
AWSCURRENT, the Locator issues exactly one ListSecretVersionIds request —
even when further pages exist, the second page is never requested — and it
returns the ID of the first such version on the page. -/
theorem locate_early_exit (page : List Version) (pages : List (List Version))
    (v : String) (h : findCurrentInVersions page = some v) :
    locate (page :: pages) = (some v, 1) := by
  simp only [locate, h]

/-- Witness for locate_early_exit: a two-page history with the holder on
page one takes exactly one request. -/
theorem locate_early_exit_witness :
    locate [[⟨"v1", ["AWSPREVIOUS"]⟩, ⟨"v2", ["AWSCURRENT", "AWSPENDING"]⟩],
            [⟨"v3", ["STAGEA"]⟩]] = (some "v2", 1) :=
  locate_early_exit [⟨"v1", ["AWSPREVIOUS"]⟩, ⟨"v2", ["AWSCURRENT", "AWSPENDING"]⟩]
    [[⟨"v3", ["STAGEA"]⟩]] "v2" (by rfl)

/-! ## Helper lemmas about the executor loops -/

theorem locate_fst_none (pages : List (List Version))
    (h : ∀ p ∈ pages, findCurrentInVersions p = none) :
    (locate pages).1 = none := by
  induction pages with
  | nil => rfl
  | cons page rest ih =>
    have hp : findCurrentInVersions page = none := h page (by simp)
    cases rest with
    | nil => simp [locate, hp]
    | cons a as =>
      have hr := ih (fun p hp2 => h p (by simp [hp2]))
      simp only [locate, hp] at hr ⊢
      exact hr

theorem processRemovals_mem (prev : Option String) (moveRes : MoveCall → MoveResult)
    (toRemove : List String) (c : MoveCall)
    (hc : c ∈ (processRemovals prev moveRes toRemove).1) :
    c.removeFrom = prev ∧ c.moveTo = none ∧ c.stage ≠ "AWSCURRENT" := by
  induction toRemove with
  | nil => simp [processRemovals] at hc
  | cons stage rest ih =>
    by_cases hs : stage = "AWSCURRENT"
    · rw [processRemovals, if_pos hs] at hc
      exact ih hc
    · rw [processRemovals, if_neg hs] at hc
      cases hmr : moveRes ⟨none, prev, stage⟩ with
      | success =>
        rw [hmr] at hc
        simp only [List.mem_cons] at hc
        rcases hc with rfl | hc
        · exact ⟨rfl, rfl, hs⟩
        · exact ih hc
      | notFound | invalidDeleted | otherErr =>
        rw [hmr] at hc
        simp only [List.mem_singleton] at hc
        subst hc
        exact ⟨rfl, rfl, hs⟩

theorem processAdds_mem_moveTo (versionID : String) (pages : List (List Version))
    (moveRes : MoveCall → MoveResult) (toAdd : List String) (described : Bool)
    (prev : Option String) (c : MoveCall)
    (hc : c ∈ (processAdds versionID pages moveRes toAdd described prev).1) :
    c.moveTo = some versionID := by
  induction toAdd generalizing described prev with
  | nil => simp [processAdds] at hc
  | cons stage rest ih =>
    rw [processAdds] at hc
    by_cases hs : stage = "AWSCURRENT" ∧ described = false
    · rw [if_pos hs] at hc
      cases hloc : (locate pages).1 with
      | none => simp only [hloc] at hc; simp at hc
      | some holder =>
        simp only [hloc] at hc
        cases hmr : moveRes ⟨some versionID, some holder, stage⟩ with
        | success =>
          simp only [hmr, List.mem_cons] at hc
          rcases hc with rfl | hc
          · rfl
          · exact ih _ _ hc
        | notFound | invalidDeleted | otherErr =>
          simp only [hmr, List.mem_singleton] at hc
          subst hc
          rfl
    · rw [if_neg hs] at hc
      cases hmr : moveRes ⟨some versionID, none, stage⟩ with
      | success =>
        simp only [hmr, List.mem_cons] at hc
        rcases hc with rfl | hc
        · rfl
        · exact ih _ _ hc
      | notFound | invalidDeleted | otherErr =>
        simp only [hmr, List.mem_singleton] at hc
        subst hc
        rfl

theorem processAdds_crash (versionID : String) (pages : List (List Version))
    (toAdd : List String) (prev : Option String)
    (hloc : (locate pages).1 = none) (hadd : "AWSCURRENT" ∈ toAdd) :
    (processAdds versionID pages allMovesOk toAdd false prev).2.2 = Outcome.crash := by
  induction toAdd generalizing prev with
  | nil => simp at hadd
  | cons stage rest ih =>
    by_cases hs : stage = "AWSCURRENT"
    · rw [processAdds, if_pos ⟨hs, rfl⟩, hloc]
    · have hrest : "AWSCURRENT" ∈ rest := by
        rcases List.mem_cons.mp hadd with h | h
        · exact absurd h.symm hs
        · exact h
      rw [processAdds, if_neg (by simp [hs])]
      simp only [allMovesOk]
      exact ih none hrest

theorem processRemovals_filter_current (prev : Option String)
    (moveRes : MoveCall → MoveResult) (toRemove : List String) :
    processRemovals prev moveRes toRemove =
      processRemovals prev moveRes (toRemove.filter (fun st => st != "AWSCURRENT")) := by
  induction toRemove with
  | nil => rfl
  | cons stage rest ih =>
    by_cases hs : stage = "AWSCURRENT"
    · rw [processRemovals, if_pos hs, List.filter_cons_of_neg (by simp [hs]), ih]
    · rw [List.filter_cons_of_pos (by simp [hs]), processRemovals, if_neg hs,
        processRemovals, if_neg hs, ih]

/-! ## Claim theorems: the Reconciliation Executor -/

/-- Claim C1: in a version history in which no version carries AWSCURRENT,
the Locator step of an Update whose additions contain AWSCURRENT ends with a
nil holder, and the reconciliation then crashes: the debug log between the
pagination loop and the move call dereferences the nil holder pointer. This
refutes the claim that the nil holder is processed without crashing. -/
theorem update_crashes_on_nil_current_holder (versionID : String)
    (pages : List (List Version)) (toAdd toRemove : List String)
    (hpages : ∀ p ∈ pages, findCurrentInVersions p = none)
    (hadd : "AWSCURRENT" ∈ toAdd) :
    (updateSecretVersionStages versionID pages allMovesOk toAdd toRemove).2 =
      Outcome.crash := by
  have h := processAdds_crash versionID pages toAdd (some versionID)
    (locate_fst_none pages hpages) hadd
  unfold updateSecretVersionStages
  split
  · rename_i heq
    rw [h] at heq
    cases heq
  · exact h

/-- Witness for update_crashes_on_nil_current_holder: a one-page history
whose only version carries only AWSPREVIOUS makes the Update crash when
adding AWSCURRENT. -/
theorem update_crashes_on_nil_current_holder_witness :
    (updateSecretVersionStages "v2" [[⟨"v1", ["AWSPREVIOUS"]⟩]] allMovesOk
      ["AWSCURRENT"] []).2 = Outcome.crash :=
  update_crashes_on_nil_current_holder "v2" [[⟨"v1", ["AWSPREVIOUS"]⟩]]
    ["AWSCURRENT"] [] (by decide) (by decide)

/-- Claim C2, counterexample: one non-AWSCURRENT addition followed by one
removal. The addition overwrites awsPreviousVersionID with its own absent
RemoveFromVersionId field, so the removal call carries no remove-from target
at all — not the reconciled version's ID, although no AWSCURRENT relocation
occurred in the call. -/
theorem removal_target_counterexample :
    updateSecretVersionStages "v2" [] allMovesOk ["STAGEA"] ["STAGEB"] =
      ([⟨some "v2", none, "STAGEA"⟩, ⟨none, none, "STAGEB"⟩], Outcome.ok) ∧
    (some "v2" : Option String) ≠ none := by
  exact ⟨by decide, by decide⟩

/-- Claim C2 (amended): every removal call carries the final value of
awsPreviousVersionID after the addition phase as its remove-from target;
that value is the version under reconciliation only when the addition phase
processed no additions (each processed addition overwrites it with that
addition's own remove-from field, which is absent unless the addition was
the first AWSCURRENT one). -/
theorem removals_target_final_previous_holder (versionID : String)
    (pages : List (List Version)) (moveRes : MoveCall → MoveResult)
    (toAdd toRemove : List String) (c : MoveCall)
    (hc : c ∈ (processRemovals
      (processAdds versionID pages moveRes toAdd false (some versionID)).2.1
      moveRes toRemove).1) :
    c.removeFrom =
      (processAdds versionID pages moveRes toAdd false (some versionID)).2.1 ∧
    (toAdd = [] →
      (processAdds versionID pages moveRes toAdd false (some versionID)).2.1 =
        some versionID) := by
  refine ⟨(processRemovals_mem _ _ _ _ hc).1, ?_⟩
  rintro rfl
  rfl

/-- Witness for removals_target_final_previous_holder: with no additions the
single removal call targets the reconciled version. -/
theorem removals_target_final_previous_holder_witness :
    (⟨none, some "v2", "STAGEB"⟩ : MoveCall).removeFrom =
      (processAdds "v2" [] allMovesOk [] false (some "v2")).2.1 ∧
    (([] : List String) = [] →
      (processAdds "v2" [] allMovesOk [] false (some "v2")).2.1 = some "v2") :=
  removals_target_final_previous_holder "v2" [] allMovesOk [] ["STAGEB"]
    ⟨none, some "v2", "STAGEB"⟩ (by decide)

/-- Claim C4: the Update executor never issues a bare-remove call (a call
with no move-to target) for AWSCURRENT; an AWSCURRENT entry in the
removal set is skipped, the loop continues exactly as if the entry were
absent, and the skip produces no error. -/
theorem update_never_bare_removes_current (versionID : String)
    (pages : List (List Version)) (moveRes : MoveCall → MoveResult)
    (toAdd toRemove : List String) (prev : Option String) (c : MoveCall)
    (hc : c ∈ (updateSecretVersionStages versionID pages moveRes toAdd toRemove).1)
    (hbare : c.moveTo = none) :
    c.stage ≠ "AWSCURRENT" ∧
    processRemovals prev moveRes toRemove =
      processRemovals prev moveRes (toRemove.filter (fun st => st != "AWSCURRENT")) := by
  constructor
  · unfold updateSecretVersionStages at hc
    split at hc
    · rcases List.mem_append.mp hc with h | h
      · have := processAdds_mem_moveTo versionID pages moveRes toAdd false
          (some versionID) c h
        rw [this] at hbare
        cases hbare
      · exact (processRemovals_mem _ _ _ _ h).2.2
    · have := processAdds_mem_moveTo versionID pages moveRes toAdd false
        (some versionID) c hc
      rw [this] at hbare
      cases hbare
  · exact processRemovals_filter_current prev moveRes toRemove

/-- Witness for update_never_bare_removes_current at concrete inputs. -/
theorem update_never_bare_removes_current_witness :
    (⟨none, some "v2", "STAGEB"⟩ : MoveCall).stage ≠ "AWSCURRENT" ∧
    processRemovals (some "w") allMovesOk ["AWSCURRENT", "STAGEB"] =
      processRemovals (some "w") allMovesOk
        (["AWSCURRENT", "STAGEB"].filter (fun st => st != "AWSCURRENT")) :=
  update_never_bare_removes_current "v2" [] allMovesOk [] ["AWSCURRENT", "STAGEB"]
    (some "w") ⟨none, some "v2", "STAGEB"⟩ (by decide) (by decide)

/-! ## Claim theorems: the Retrying Reader -/

theorem retryGetSecretValue_not_new (get : Nat → GetResult) (i fuel : Nat) :
    retryGetSecretValue false get i fuel = (i + 1, false, get i) := by
  unfold retryGetSecretValue
  simp

/-- Claim C8: reading a pre-existing (not newly created) resource whose
remote read fails with ResourceNotFoundException or the deleted-secret
InvalidRequestException makes exactly one remote call (no retry), clears the
resource ID — dropping the resource from state — and returns success. -/
theorem read_preexisting_absence_clears_state (get : Nat → GetResult)
    (fuel : Nat) (id : String)
    (h : get 0 = GetResult.notFound ∨ get 0 = GetResult.invalidDeleted) :
    readSecretVersion false get fuel id = (1, none, Outcome.ok) := by
  rcases h with h | h <;>
    simp [readSecretVersion, retryGetSecretValue_not_new, h]

/-- Witness for read_preexisting_absence_clears_state: a remote that always
answers not-found. -/
theorem read_preexisting_absence_clears_state_witness :
    readSecretVersion false alwaysNotFound 5 "secret|version" =
      (1, none, Outcome.ok) :=
  read_preexisting_absence_clears_state alwaysNotFound 5 "secret|version"
    (Or.inl rfl)

/-! ## Claim theorems: the Deletion path -/

/-- Claim C9: over any stage set, the Delete path returns success whenever
no removal call fails with a non-absence error (absence errors —
ResourceNotFoundException and the deleted-secret InvalidRequestException —
are treated as success); and with an all-success remote it issues exactly
one removal call, targeting the version under deletion, for each held stage
except AWSCURRENT, which is skipped without error. -/
theorem delete_removes_all_but_current (versionID : String)
    (stages : List String) (moveRes : MoveCall → MoveResult)
    (hmr : ∀ c, moveRes c ≠ MoveResult.otherErr) :
    (deleteSecretVersionStages versionID moveRes stages).2 = Outcome.ok ∧
    (deleteSecretVersionStages versionID allMovesOk stages).1 =
      (stages.filter (fun st => st != "AWSCURRENT")).map
        (fun st => ⟨none, some versionID, st⟩) := by
  constructor
  · induction stages with
    | nil => rfl
    | cons stage rest ih =>
      by_cases hs : stage = "AWSCURRENT"
      · rw [deleteSecretVersionStages, if_pos hs]
        exact ih
      · rw [deleteSecretVersionStages, if_neg hs]
        cases hm : moveRes ⟨none, some versionID, stage⟩ with
        | success =>
          simp only [hm]
          exact ih
        | notFound => rfl
        | invalidDeleted => rfl
        | otherErr => exact absurd hm (hmr _)
  · induction stages with
    | nil => rfl
    | cons stage rest ih =>
      by_cases hs : stage = "AWSCURRENT"
      · rw [deleteSecretVersionStages, if_pos hs,
          List.filter_cons_of_neg (by simp [hs])]
        exact ih
      · rw [deleteSecretVersionStages, if_neg hs,
          List.filter_cons_of_pos (by simp [hs])]
        simp only [allMovesOk, List.map_cons]
        rw [ih]

/-- Witness for delete_removes_all_but_current: deleting a version holding
AWSCURRENT and one other stage issues exactly one removal call. -/
theorem delete_removes_all_but_current_witness :
    (deleteSecretVersionStages "v1" allMovesOk ["AWSCURRENT", "STAGEA"]).2 =
      Outcome.ok ∧
    (deleteSecretVersionStages "v1" allMovesOk ["AWSCURRENT", "STAGEA"]).1 =
      [⟨none, some "v1", "STAGEA"⟩] := by
  have h := delete_removes_all_but_current "v1" ["AWSCURRENT", "STAGEA"] allMovesOk
    (fun c hcontra => MoveResult.noConfusion hcontra)
  exact ⟨h.1, h.2.trans (by decide)⟩

end SecretVersion

namespace IVSChatTags

/-! ## Claim theorems: the tag-update glue -/

theorem removedTags_self (l : List (String × String)) : removedTags l l = [] := by
  rw [removedTags, List.filter_eq_nil_iff]
  intro kv hkv hcontra
  have hany : l.any (fun kv2 => kv2.1 == kv.1) = true :=
    List.any_eq_true.mpr ⟨kv, hkv, by simp⟩
  rw [hany] at hcontra
  simp at hcontra

theorem updatedTags_self (l : List (String × String)) : updatedTags l l = [] := by
  rw [updatedTags, List.filter_eq_nil_iff]
  intro kv hkv hcontra
  have hany : l.any (fun kv2 => kv2.1 == kv.1 && kv2.2 == kv.2) = true :=
    List.any_eq_true.mpr ⟨kv, hkv, by simp⟩
  rw [hany] at hcontra
  simp at hcontra

/-- Claim C10: whenever the computed removed-tag set and updated-tag set are
both empty — in particular when the old and new tag maps are equal —
UpdateTags issues no remote calls at all (neither untag nor tag) and returns
success, leaving the remote resource's tags untouched. -/
theorem update_tags_frame (oldTags newTags : List (String × String))
    (untagOk tagOk : Bool)
    (hr : removedTags oldTags newTags = [])
    (hu : updatedTags oldTags newTags = []) :
    UpdateTags oldTags newTags untagOk tagOk = ([], SecretVersion.Outcome.ok) ∧
    UpdateTags oldTags oldTags untagOk tagOk = ([], SecretVersion.Outcome.ok) := by
  constructor
  · simp [UpdateTags, hr, hu]
  · simp [UpdateTags, removedTags_self, updatedTags_self]

/-- Witness for update_tags_frame: identical one-entry tag maps produce no
calls. -/
theorem update_tags_frame_witness :
    UpdateTags [("env", "prod")] [("env", "prod")] true true =
      ([], SecretVersion.Outcome.ok) ∧
    UpdateTags [("env", "prod")] [("env", "prod")] true true =
      ([], SecretVersion.Outcome.ok) :=
  update_tags_frame [("env", "prod")] [("env", "prod")] true true
    (by decide) (by decide)

end IVSChatTags
